import Mathlib

/-
Verification of the contract-composition and call-interception engine of
python-toy-contract (src/main.py) against its natural-language specification.

The Python source is shallowly embedded:
  * `Localized` mirrors the dataclass `Localized` (a value plus the class that
    introduced it; classes are identified by `Nat` tags).
  * assertion callables (invariants, preconditions, postconditions) are
    modelled as boolean predicates: a Python assertion body that raises
    `AssertionError` corresponds to the predicate returning `false`.
  * raising an `AssertionError` from a check is modelled by
    `Except Nat Unit`: `.error o` carries the origin tag of the failing
    clause, `.ok ()` is a check that passed.
  * `check_invariants`, `check_requires`, `check_ensures` and the wrapped
    method `func` built by `_ContractedMethodFactory.create` are translated
    line by line; object state is passed explicitly (`σ`), the dynamic
    `__class__` swap between the relaxed and contracted views becomes the
    `view` field of `Instance`.
-/

namespace ToyContract

variable {σ α ρ ε μ A : Type}

/-- Mirror of the `Localized` dataclass of src/main.py: a value and the type
(origin) that introduced it. Origins are class identifiers (`Nat`). -/
structure Localized (α : Type) where
  value : α
  origin : Nat
  deriving DecidableEq, Repr

/-- The two dispatch views of an instance: `contracted` (checked dispatch) and
`relaxed` (raw dispatch), mirroring the `__contracted__`/`__relaxed__`
classes that `func` assigns to `slf.__class__`. -/
inductive View where
  | contracted
  | relaxed
  deriving DecidableEq, Repr

/-- An object: its mutable state `σ` together with its current dispatch view
(the value of `slf.__class__`, abstracted to the relaxed/contracted tag). -/
structure Instance (σ : Type) where
  state : σ
  view : View
  deriving DecidableEq, Repr

/-- Mirror of `MethodContract` (src/main.py): the most-derived raw
implementation plus the composed assertion lists. `requires` and `ensures`
are stored in base-to-derived order, as produced by `_extract_assertions`.
The raw implementation returns either a value or an exception `ε`, together
with the state it leaves behind. -/
structure MethodContract (σ α ρ ε : Type) where
  method : σ → α → (Except ε ρ) × σ
  requires : List (Localized (σ → α → Bool))
  ensures : List (Localized (σ → ρ → σ → α → Bool))

/-- Loop body of `_ContractedMethodFactory.check_invariants` (src/main.py
lines 388-395): evaluate each invariant in the order given, stopping with the
origin of the first one that fails. -/
def check_invariantsGo : List (Localized (σ → Bool)) → σ → Except Nat Unit
  | [], _ => .ok ()
  | inv :: rest, slf =>
    if inv.value slf then check_invariantsGo rest slf else .error inv.origin

/-- `_ContractedMethodFactory.check_invariants`: the stored invariant list is
walked with `reversed(...)` (line 388), so evaluation order is the reverse of
storage order. An empty list passes trivially (line 384). -/
def check_invariants (invariants : List (Localized (σ → Bool))) (slf : σ) :
    Except Nat Unit :=
  check_invariantsGo invariants.reverse slf

/-- Loop of `_ContractedMethodFactory.check_requires` after the first
iteration (src/main.py lines 411-421): `err` is the origin recorded by the
most recent failure; a passing precondition returns success immediately, and
exhausting the list raises the last recorded failure. -/
def check_requiresGo (err : Nat) :
    List (Localized (σ → α → Bool)) → σ → α → Except Nat Unit
  | [], _, _ => .error err
  | r :: rest, slf, args =>
    if r.value slf args then .ok () else check_requiresGo r.origin rest slf args

/-- `_ContractedMethodFactory.check_requires` (src/main.py lines 397-421):
an empty `requires` list returns immediately (line 406); otherwise the stored
(base-to-derived) list is walked in order, succeeding at the first passing
precondition, and if all fail the last-evaluated failure is raised. -/
def check_requires :
    List (Localized (σ → α → Bool)) → σ → α → Except Nat Unit
  | [], _, _ => .ok ()
  | r :: rest, slf, args =>
    if r.value slf args then .ok () else check_requiresGo r.origin rest slf args

/-- Loop body of `_ContractedMethodFactory.check_ensures` (src/main.py lines
429-436): each postcondition receives the current state, the return value,
the `old` snapshot and the arguments; the first failure is raised. -/
def check_ensuresGo :
    List (Localized (σ → ρ → σ → α → Bool)) → σ → ρ → σ → α → Except Nat Unit
  | [], _, _, _, _ => .ok ()
  | e :: rest, slf, ret, old, args =>
    if e.value slf ret old args then check_ensuresGo rest slf ret old args
    else .error e.origin

/-- `_ContractedMethodFactory.check_ensures` (src/main.py lines 423-436): the
stored base-to-derived list is walked with `reversed(...)` (line 429), i.e. in
derived-to-base order; all must pass. An empty list passes (line 424). -/
def check_ensures (ensures : List (Localized (σ → ρ → σ → α → Bool)))
    (slf : σ) (ret : ρ) (old : σ) (args : α) : Except Nat Unit :=
  check_ensuresGo ensures.reverse slf ret old args

/-- Outcome of one contracted call: normal return, a propagated
`AssertionError` from a contract check (with the origin of the failing
clause), or a non-assertion exception raised by the raw implementation.
Each outcome carries the instance as the caller observes it afterwards. -/
inductive CallResult (σ ρ ε : Type) where
  | ok (ret : ρ) (inst : Instance σ)
  | assertionError (origin : Nat) (inst : Instance σ)
  | otherError (e : ε) (inst : Instance σ)
  deriving DecidableEq, Repr

/-- The wrapped method `func` built by `_ContractedMethodFactory.create`
(src/main.py lines 353-374), translated step by step:
set `slf.__class__` to the relaxed view; snapshot `old = deepcopy(slf)` —
since assertions are pure predicates here, the snapshot is exactly the
pre-call state `inst.state`, and it is what `check_ensures` receives as
`old`; if paranoid, check invariants; check preconditions; run the raw
implementation; check postconditions against the new state, the return value,
the snapshot and the arguments; check invariants again; only on full success
restore the contracted view. Any `AssertionError` (and any exception of the
raw body) propagates, skipping every later step including the view
restoration. -/
def contractedCall (paranoid : Bool) (invariants : List (Localized (σ → Bool)))
    (mc : MethodContract σ α ρ ε) (inst : Instance σ) (args : α) :
    CallResult σ ρ ε :=
  match (if paranoid then check_invariants invariants inst.state else .ok ()) with
  | .error o => .assertionError o ⟨inst.state, .relaxed⟩
  | .ok () =>
    match check_requires mc.requires inst.state args with
    | .error o => .assertionError o ⟨inst.state, .relaxed⟩
    | .ok () =>
      match mc.method inst.state args with
      | (.error e, s') => .otherError e ⟨s', .relaxed⟩
      | (.ok ret, s') =>
        match check_ensures mc.ensures s' ret inst.state args with
        | .error o => .assertionError o ⟨s', .relaxed⟩
        | .ok () =>
          match check_invariants invariants s' with
          | .error o => .assertionError o ⟨s', .relaxed⟩
          | .ok () => .ok ret ⟨s', .contracted⟩

/-- The last-recorded origin after walking a (possibly empty) suffix of the
requires list: the origin of its last element, or `err` if the suffix is
empty. This is the value `check_requiresGo` raises when every precondition
fails. -/
def lastOrigin (err : Nat) (l : List (Localized (σ → α → Bool))) : Nat :=
  match l.getLast? with
  | none => err
  | some r => r.origin

theorem check_requiresGo_allFail (err : Nat)
    (l : List (Localized (σ → α → Bool))) (slf : σ) (args : α)
    (h : ∀ r ∈ l, r.value slf args = false) :
    check_requiresGo err l slf args = .error (lastOrigin err l) := by
  induction l generalizing err with
  | nil => rfl
  | cons r rest ih =>
    have hr : r.value slf args = false := h r (List.mem_cons_self r rest)
    have hrest : ∀ q ∈ rest, q.value slf args = false :=
      fun q hq => h q (List.mem_cons_of_mem r hq)
    simp only [check_requiresGo, hr, if_neg Bool.false_ne_true]
    rw [ih r.origin hrest]
    cases rest with
    | nil => rfl
    | cons s t =>
      simp only [lastOrigin, List.getLast?_cons_cons]
      cases h2 : (s :: t).getLast? with
      | none => simp at h2
      | some u => rfl

theorem check_requiresGo_firstPass (err : Nat)
    (pre : List (Localized (σ → α → Bool))) (r : Localized (σ → α → Bool))
    (post : List (Localized (σ → α → Bool))) (slf : σ) (args : α)
    (hpre : ∀ q ∈ pre, q.value slf args = false)
    (hr : r.value slf args = true) :
    check_requiresGo err (pre ++ r :: post) slf args = .ok () := by
  induction pre generalizing err with
  | nil => simp [check_requiresGo, hr]
  | cons q rest ih =>
    have hq : q.value slf args = false := hpre q (List.mem_cons_self q rest)
    have hrest : ∀ p ∈ rest, p.value slf args = false :=
      fun p hp => hpre p (List.mem_cons_of_mem q hp)
    simp only [List.cons_append, check_requiresGo, hq,
      if_neg Bool.false_ne_true]
    exact ih q.origin hrest

/-- C1. Preconditions are evaluated in the stored base-to-derived order
against the receiver's current state and the arguments; the step succeeds at
the first passing one (the later entries are irrelevant), and when every
precondition fails, the failure raised is that of the last-evaluated
(most-derived) precondition — earlier ancestor failures are discarded.
At call level: if the (optional) paranoid invariant check passes and every
precondition fails, the call ends with exactly that last failure. -/
theorem requires_first_pass_last_fail :
    (∀ (σ α : Type) (reqs pre post : List (Localized (σ → α → Bool)))
       (r : Localized (σ → α → Bool)) (slf : σ) (args : α),
       reqs = pre ++ r :: post →
       (∀ q ∈ pre, q.value slf args = false) →
       r.value slf args = true →
       check_requires reqs slf args = .ok ())
    ∧ (∀ (σ α : Type) (reqs : List (Localized (σ → α → Bool)))
         (last : Localized (σ → α → Bool)) (slf : σ) (args : α),
         (∀ q ∈ reqs, q.value slf args = false) →
         reqs.getLast? = some last →
         check_requires reqs slf args = .error last.origin)
    ∧ (∀ (σ α ρ ε : Type) (paranoid : Bool)
         (invariants : List (Localized (σ → Bool)))
         (mc : MethodContract σ α ρ ε) (inst : Instance σ) (args : α)
         (last : Localized (σ → α → Bool)),
         (paranoid = true → check_invariants invariants inst.state = .ok ()) →
         (∀ q ∈ mc.requires, q.value inst.state args = false) →
         mc.requires.getLast? = some last →
         contractedCall paranoid invariants mc inst args
           = .assertionError last.origin ⟨inst.state, .relaxed⟩) := by
  have hfail : ∀ (σ α : Type) (reqs : List (Localized (σ → α → Bool)))
      (last : Localized (σ → α → Bool)) (slf : σ) (args : α),
      (∀ q ∈ reqs, q.value slf args = false) →
      reqs.getLast? = some last →
      check_requires reqs slf args = .error last.origin := by
    intro σ α reqs last slf args hall hlast
    cases reqs with
    | nil => simp at hlast
    | cons r rest =>
      have hr : r.value slf args = false := hall r (List.mem_cons_self r rest)
      have hrest : ∀ q ∈ rest, q.value slf args = false :=
        fun q hq => hall q (List.mem_cons_of_mem r hq)
      simp only [check_requires, hr, if_neg Bool.false_ne_true]
      rw [check_requiresGo_allFail r.origin rest slf args hrest]
      cases hrest2 : rest.getLast? with
      | none =>
        have : rest = [] := List.getLast?_eq_none_iff.mp hrest2
        subst this
        simp [List.getLast?_singleton] at hlast
        simp [lastOrigin, hlast]
      | some s =>
        have : (r :: rest).getLast? = some s := by
          cases rest with
          | nil => simp at hrest2
          | cons a b => rw [List.getLast?_cons_cons]; exact hrest2
        rw [this] at hlast
        cases hlast
        simp [lastOrigin, hrest2]
  refine ⟨?_, hfail, ?_⟩
  · intro σ α reqs pre post r slf args hsplit hpre hr
    subst hsplit
    cases pre with
    | nil => simp [check_requires, hr]
    | cons q rest =>
      have hq : q.value slf args = false := hpre q (List.mem_cons_self q rest)
      have hrest : ∀ p ∈ rest, p.value slf args = false :=
        fun p hp => hpre p (List.mem_cons_of_mem q hp)
      simp only [List.cons_append, check_requires, hq,
        if_neg Bool.false_ne_true]
      exact check_requiresGo_firstPass q.origin rest r post slf args hrest hr
  · intro σ α ρ ε paranoid invariants mc inst args last hinv hall hlast
    have hreq := hfail σ α mc.requires last inst.state args hall hlast
    unfold contractedCall
    cases paranoid with
    | false => simp [hreq]
    | true => simp [hinv rfl, hreq]

/-- Witness for C1: a two-element requires list where the base precondition
fails and the derived one passes succeeds; one where both fail raises the
derived (last) origin, also through a full contracted call. -/
theorem requires_first_pass_last_fail_witness :
    check_requires
      [⟨fun s _ => s == 1, 0⟩, ⟨fun s _ => s == 2, 1⟩] (2 : Nat) () = .ok ()
    ∧ check_requires
      [⟨fun s _ => s == 1, 0⟩, ⟨fun s _ => s == 2, 1⟩] (3 : Nat) () = .error 1
    ∧ contractedCall false []
        ⟨fun s _ => (.ok 0, s),
         [⟨fun s _ => s == 1, 0⟩, ⟨fun s _ => s == 2, 1⟩], []⟩
        (⟨3, .contracted⟩ : Instance Nat) ()
        = (.assertionError 1 ⟨3, .relaxed⟩ : CallResult Nat Nat Nat) := by
  refine ⟨?_, ?_, ?_⟩
  · exact requires_first_pass_last_fail.1 Nat Unit _
      [⟨fun s _ => s == 1, 0⟩] [] ⟨fun s _ => s == 2, 1⟩ 2 () rfl
      (by decide) (by decide)
  · exact requires_first_pass_last_fail.2.1 Nat Unit _
      ⟨fun s _ => s == 2, 1⟩ 3 () (by decide) rfl
  · exact requires_first_pass_last_fail.2.2 Nat Unit Nat Nat false []
      ⟨fun s _ => (.ok 0, s),
       [⟨fun s _ => s == 1, 0⟩, ⟨fun s _ => s == 2, 1⟩], []⟩
      ⟨3, .contracted⟩ () ⟨fun s _ => s == 2, 1⟩
      (by intro h; cases h) (by decide) rfl

theorem check_ensuresGo_allPass (l : List (Localized (σ → ρ → σ → α → Bool)))
    (slf : σ) (ret : ρ) (old : σ) (args : α)
    (h : ∀ e ∈ l, e.value slf ret old args = true) :
    check_ensuresGo l slf ret old args = .ok () := by
  induction l with
  | nil => rfl
  | cons e rest ih =>
    have he : e.value slf ret old args = true := h e (List.mem_cons_self e rest)
    simp only [check_ensuresGo, he, if_pos]
    exact ih fun q hq => h q (List.mem_cons_of_mem e hq)

theorem check_ensuresGo_firstFail
    (pre : List (Localized (σ → ρ → σ → α → Bool)))
    (bad : Localized (σ → ρ → σ → α → Bool))
    (post : List (Localized (σ → ρ → σ → α → Bool)))
    (slf : σ) (ret : ρ) (old : σ) (args : α)
    (hpre : ∀ e ∈ pre, e.value slf ret old args = true)
    (hbad : bad.value slf ret old args = false) :
    check_ensuresGo (pre ++ bad :: post) slf ret old args = .error bad.origin := by
  induction pre with
  | nil => simp [check_ensuresGo, hbad]
  | cons e rest ih =>
    have he : e.value slf ret old args = true :=
      hpre e (List.mem_cons_self e rest)
    simp only [List.cons_append, check_ensuresGo, he, if_pos]
    exact ih fun q hq => hpre q (List.mem_cons_of_mem e hq)

theorem check_invariantsGo_allPass (l : List (Localized (σ → Bool))) (s : σ)
    (h : ∀ i ∈ l, i.value s = true) :
    check_invariantsGo l s = .ok () := by
  induction l with
  | nil => rfl
  | cons i rest ih =>
    have hi : i.value s = true := h i (List.mem_cons_self i rest)
    simp only [check_invariantsGo, hi, if_pos]
    exact ih fun q hq => h q (List.mem_cons_of_mem i hq)

theorem check_invariantsGo_firstFail (pre : List (Localized (σ → Bool)))
    (bad : Localized (σ → Bool)) (post : List (Localized (σ → Bool))) (s : σ)
    (hpre : ∀ i ∈ pre, i.value s = true) (hbad : bad.value s = false) :
    check_invariantsGo (pre ++ bad :: post) s = .error bad.origin := by
  induction pre with
  | nil => simp [check_invariantsGo, hbad]
  | cons i rest ih =>
    have hi : i.value s = true := hpre i (List.mem_cons_self i rest)
    simp only [List.cons_append, check_invariantsGo, hi, if_pos]
    exact ih fun q hq => hpre q (List.mem_cons_of_mem i hq)

/-- C2. Postconditions are evaluated in derived-to-base order (the reverse of
the stored base-to-derived list), each receiving the receiver's current
state, the return value, the pre-call snapshot and the original arguments;
all must pass, the walk stops at the first failing one (most-derived first),
and at call level a failing postcondition fails the call even though the
preconditions passed and the raw implementation already returned. -/
theorem ensures_derived_to_base_all_pass :
    (∀ (σ α ρ : Type) (ens : List (Localized (σ → ρ → σ → α → Bool)))
       (slf old : σ) (ret : ρ) (args : α),
       (∀ e ∈ ens, e.value slf ret old args = true) →
       check_ensures ens slf ret old args = .ok ())
    ∧ (∀ (σ α ρ : Type)
         (ens pre post : List (Localized (σ → ρ → σ → α → Bool)))
         (bad : Localized (σ → ρ → σ → α → Bool))
         (slf old : σ) (ret : ρ) (args : α),
         ens.reverse = pre ++ bad :: post →
         (∀ e ∈ pre, e.value slf ret old args = true) →
         bad.value slf ret old args = false →
         check_ensures ens slf ret old args = .error bad.origin)
    ∧ (∀ (σ α ρ ε : Type) (paranoid : Bool)
         (invariants : List (Localized (σ → Bool)))
         (mc : MethodContract σ α ρ ε) (inst : Instance σ) (args : α)
         (ret : ρ) (s' : σ) (o : Nat),
         (paranoid = true → check_invariants invariants inst.state = .ok ()) →
         check_requires mc.requires inst.state args = .ok () →
         mc.method inst.state args = (.ok ret, s') →
         check_ensures mc.ensures s' ret inst.state args = .error o →
         contractedCall paranoid invariants mc inst args
           = .assertionError o ⟨s', .relaxed⟩) := by
  refine ⟨?_, ?_, ?_⟩
  · intro σ α ρ ens slf old ret args h
    exact check_ensuresGo_allPass ens.reverse slf ret old args
      fun e he => h e (List.mem_reverse.mp he)
  · intro σ α ρ ens pre post bad slf old ret args hsplit hpre hbad
    unfold check_ensures
    rw [hsplit]
    exact check_ensuresGo_firstFail pre bad post slf ret old args hpre hbad
  · intro σ α ρ ε paranoid invariants mc inst args ret s' o hinv hreq hm hens
    unfold contractedCall
    cases paranoid with
    | false => simp [hreq, hm, hens]
    | true => simp [hinv rfl, hreq, hm, hens]

/-- Witness for C2: a stored two-element ensures list is walked in reverse
(derived first); with the derived clause failing, the check and a full
contracted call report the derived origin even though the precondition
passed. -/
theorem ensures_derived_to_base_all_pass_witness :
    check_ensures
      [⟨fun s _ _ _ => s == 5, 0⟩, ⟨fun s _ _ _ => s == 5, 1⟩]
      (5 : Nat) (0 : Nat) 4 () = .ok ()
    ∧ check_ensures
      [⟨fun s _ _ _ => s == 5, 0⟩, ⟨fun _ _ _ _ => false, 1⟩]
      (5 : Nat) (0 : Nat) 4 () = .error 1
    ∧ contractedCall false []
        ⟨fun s _ => (.ok 0, s + 1),
         [⟨fun _ _ => true, 0⟩],
         [⟨fun s _ _ _ => s == 5, 0⟩, ⟨fun _ _ _ _ => false, 1⟩]⟩
        (⟨4, .contracted⟩ : Instance Nat) ()
        = (.assertionError 1 ⟨5, .relaxed⟩ : CallResult Nat Nat Nat) := by
  refine ⟨?_, ?_, ?_⟩
  · exact ensures_derived_to_base_all_pass.1 Nat Unit Nat _ 5 4 0 ()
      (by decide)
  · exact ensures_derived_to_base_all_pass.2.1 Nat Unit Nat _
      [] [⟨fun s _ _ _ => s == 5, 0⟩] ⟨fun _ _ _ _ => false, 1⟩ 5 4 0 ()
      rfl (by decide) rfl
  · exact ensures_derived_to_base_all_pass.2.2 Nat Unit Nat Nat false []
      ⟨fun s _ => (.ok 0, s + 1),
       [⟨fun _ _ => true, 0⟩],
       [⟨fun s _ _ _ => s == 5, 0⟩, ⟨fun _ _ _ _ => false, 1⟩]⟩
      ⟨4, .contracted⟩ () 0 5 1
      (by intro h; cases h) rfl rfl rfl

/-- Rendering of C3's words, kept only for comparison with the code: walk the
stored derived-to-base invariant list evaluating each in storage order
(self's invariant first, most-base ancestor's last), stopping at the first
failure. The source instead walks the stored list with `reversed(...)`. -/
def check_invariants_claimOrder (invariants : List (Localized (σ → Bool)))
    (slf : σ) : Except Nat Unit :=
  check_invariantsGo invariants slf

/-- Invariant list for the C3 counterexample, in the stored derived-to-base
order: the derived (self) invariant has origin 1, the base one origin 0;
both fail on every state. -/
def brokenPairInvs : List (Localized (Unit → Bool)) :=
  [⟨fun _ => false, 1⟩, ⟨fun _ => false, 0⟩]

/-- A method contract with a trivial body and no pre/postconditions, used to
exercise the invariant phases of `contractedCall` in isolation. -/
def idUnitMC : MethodContract Unit Unit Unit Unit :=
  ⟨fun s _ => (.ok (), s), [], []⟩

/-- Counterexample to C3 as stated: with both invariants failing, a paranoid
pre-call check reports the most-base origin 0 — the walk is the reverse of
the stored derived-to-base list — whereas evaluating in the claimed storage
order (self first) would report origin 1. -/
theorem invariant_order_counterexample :
    contractedCall true brokenPairInvs idUnitMC ⟨(), .contracted⟩ ()
      = .assertionError 0 ⟨(), .relaxed⟩
    ∧ check_invariants brokenPairInvs () = .error 0
    ∧ check_invariants_claimOrder brokenPairInvs () = .error 1 := by
  refine ⟨rfl, rfl, rfl⟩

/-- C3 amended. For a paranoid type, the pre-call invariant check walks the
stored derived-to-base invariant list in reverse, i.e. evaluates
base-to-derived (most-base ancestor's invariant first, self's last); all
must pass, the walk stops at the first failing invariant of that
base-to-derived order, and its failure fails the call before the body runs. -/
theorem invariants_reverse_walk :
    (∀ (σ : Type) (invs : List (Localized (σ → Bool))) (s : σ),
       (∀ i ∈ invs, i.value s = true) → check_invariants invs s = .ok ())
    ∧ (∀ (σ : Type) (invs pre post : List (Localized (σ → Bool)))
         (bad : Localized (σ → Bool)) (s : σ),
         invs.reverse = pre ++ bad :: post →
         (∀ i ∈ pre, i.value s = true) → bad.value s = false →
         check_invariants invs s = .error bad.origin)
    ∧ (∀ (σ α ρ ε : Type) (invs : List (Localized (σ → Bool)))
         (mc : MethodContract σ α ρ ε) (inst : Instance σ) (args : α)
         (o : Nat),
         check_invariants invs inst.state = .error o →
         contractedCall true invs mc inst args
           = .assertionError o ⟨inst.state, .relaxed⟩) := by
  refine ⟨?_, ?_, ?_⟩
  · intro σ invs s h
    exact check_invariantsGo_allPass invs.reverse s
      fun i hi => h i (List.mem_reverse.mp hi)
  · intro σ invs pre post bad s hsplit hpre hbad
    unfold check_invariants
    rw [hsplit]
    exact check_invariantsGo_firstFail pre bad post s hpre hbad
  · intro σ α ρ ε invs mc inst args o hinv
    unfold contractedCall
    simp [hinv]

/-- Witness for the amended C3: a passing pair passes; with the stored
derived-to-base pair (self origin 1, base origin 0) both failing, the check
and a paranoid call report the base origin 0, evaluated first. -/
theorem invariants_reverse_walk_witness :
    check_invariants ([⟨fun _ => true, 1⟩, ⟨fun _ => true, 0⟩] :
      List (Localized (Nat → Bool))) 0 = .ok ()
    ∧ check_invariants ([⟨fun _ => false, 1⟩, ⟨fun _ => false, 0⟩] :
      List (Localized (Nat → Bool))) 0 = .error 0
    ∧ contractedCall true
        ([⟨fun _ => false, 1⟩, ⟨fun _ => false, 0⟩] :
          List (Localized (Nat → Bool)))
        ⟨fun s _ => (.ok 0, s), [], []⟩
        (⟨0, .contracted⟩ : Instance Nat) ()
        = (.assertionError 0 ⟨0, .relaxed⟩ : CallResult Nat Nat Nat) := by
  refine ⟨?_, ?_, ?_⟩
  · exact invariants_reverse_walk.1 Nat _ 0 (by decide)
  · exact invariants_reverse_walk.2.1 Nat _
      [] [⟨fun _ => false, 1⟩] ⟨fun _ => false, 0⟩ 0 rfl (by decide) rfl
  · exact invariants_reverse_walk.2.2 Nat Unit Nat Nat _
      ⟨fun s _ => (.ok 0, s), [], []⟩ ⟨0, .contracted⟩ () 0 rfl

/-- C4. The post-call invariant check runs unconditionally, the pre-call one
only when paranoid: (i) for either paranoid value, a call whose earlier
phases pass but whose post-state breaks an invariant fails; (ii) with
paranoid false, a call entered with a broken invariant does not fail on
entry and raises no violation when the body restores the invariant; (iii)
with paranoid true, the same entry state fails immediately, before the body
runs (the reported instance still carries the unmodified entry state). -/
theorem paranoid_gates_only_pre_check :
    (∀ (σ α ρ ε : Type) (paranoid : Bool)
       (invs : List (Localized (σ → Bool))) (mc : MethodContract σ α ρ ε)
       (inst : Instance σ) (args : α) (ret : ρ) (s' : σ) (o : Nat),
       (paranoid = true → check_invariants invs inst.state = .ok ()) →
       check_requires mc.requires inst.state args = .ok () →
       mc.method inst.state args = (.ok ret, s') →
       check_ensures mc.ensures s' ret inst.state args = .ok () →
       check_invariants invs s' = .error o →
       contractedCall paranoid invs mc inst args
         = .assertionError o ⟨s', .relaxed⟩)
    ∧ (∀ (σ α ρ ε : Type) (invs : List (Localized (σ → Bool)))
         (mc : MethodContract σ α ρ ε) (inst : Instance σ) (args : α)
         (ret : ρ) (s' : σ) (o : Nat),
         check_invariants invs inst.state = .error o →
         check_requires mc.requires inst.state args = .ok () →
         mc.method inst.state args = (.ok ret, s') →
         check_ensures mc.ensures s' ret inst.state args = .ok () →
         check_invariants invs s' = .ok () →
         contractedCall false invs mc inst args = .ok ret ⟨s', .contracted⟩)
    ∧ (∀ (σ α ρ ε : Type) (invs : List (Localized (σ → Bool)))
         (mc : MethodContract σ α ρ ε) (inst : Instance σ) (args : α)
         (o : Nat),
         check_invariants invs inst.state = .error o →
         contractedCall true invs mc inst args
           = .assertionError o ⟨inst.state, .relaxed⟩) := by
  refine ⟨?_, ?_, ?_⟩
  · intro σ α ρ ε paranoid invs mc inst args ret s' o hpre hreq hm hens hpost
    unfold contractedCall
    cases paranoid with
    | false => simp [hreq, hm, hens, hpost]
    | true => simp [hpre rfl, hreq, hm, hens, hpost]
  · intro σ α ρ ε invs mc inst args ret s' o hpre hreq hm hens hpost
    unfold contractedCall
    simp [hreq, hm, hens, hpost]
  · intro σ α ρ ε invs mc inst args o hpre
    unfold contractedCall
    simp [hpre]

/-- Witness for C4: invariant `s == 1`, entry state 0 (broken). A body that
moves the state to 2 fails the unconditional post-check even with paranoid
false; a body that sets the state to 1 repairs the invariant, so the
non-paranoid call succeeds while the paranoid call fails on entry with the
entry state intact. -/
theorem paranoid_gates_only_pre_check_witness :
    contractedCall false [⟨fun s => s == 1, 7⟩]
      ⟨fun _ _ => (.ok 0, 2), [], []⟩
      (⟨0, .contracted⟩ : Instance Nat) ()
      = (.assertionError 7 ⟨2, .relaxed⟩ : CallResult Nat Nat Nat)
    ∧ contractedCall false [⟨fun s => s == 1, 7⟩]
      ⟨fun _ _ => (.ok 0, 1), [], []⟩
      (⟨0, .contracted⟩ : Instance Nat) ()
      = (.ok 0 ⟨1, .contracted⟩ : CallResult Nat Nat Nat)
    ∧ contractedCall true [⟨fun s => s == 1, 7⟩]
      ⟨fun _ _ => (.ok 0, 1), [], []⟩
      (⟨0, .contracted⟩ : Instance Nat) ()
      = (.assertionError 7 ⟨0, .relaxed⟩ : CallResult Nat Nat Nat) := by
  refine ⟨?_, ?_, ?_⟩
  · exact paranoid_gates_only_pre_check.1 Nat Unit Nat Nat false
      [⟨fun s => s == 1, 7⟩] ⟨fun _ _ => (.ok 0, 2), [], []⟩
      ⟨0, .contracted⟩ () 0 2 7 (by intro h; cases h) rfl rfl rfl rfl
  · exact paranoid_gates_only_pre_check.2.1 Nat Unit Nat Nat
      [⟨fun s => s == 1, 7⟩] ⟨fun _ _ => (.ok 0, 1), [], []⟩
      ⟨0, .contracted⟩ () 0 1 7 rfl rfl rfl rfl rfl
  · exact paranoid_gates_only_pre_check.2.2 Nat Unit Nat Nat
      [⟨fun s => s == 1, 7⟩] ⟨fun _ _ => (.ok 0, 1), [], []⟩
      ⟨0, .contracted⟩ () 7 rfl

/-- C7. Whenever a contracted call ends in a contract-assertion failure —
invariant, precondition or postcondition — the failure is the call's result
(it propagates to the caller) and the receiver it leaves behind still
dispatches through the relaxed (raw) view: no branch of the wrapper restores
`__contracted__` on the failure path. -/
theorem assertion_failure_leaves_relaxed_view
    (σ α ρ ε : Type) (paranoid : Bool)
    (invs : List (Localized (σ → Bool))) (mc : MethodContract σ α ρ ε)
    (inst : Instance σ) (args : α) (o : Nat) (inst' : Instance σ)
    (h : contractedCall paranoid invs mc inst args = .assertionError o inst') :
    inst'.view = .relaxed := by
  unfold contractedCall at h
  repeat' split at h
  all_goals cases h <;> rfl

/-- Witness for C7: a failing precondition leaves the instance on the relaxed
view. -/
theorem assertion_failure_leaves_relaxed_view_witness :
    (⟨3, View.relaxed⟩ : Instance Nat).view = .relaxed := by
  exact assertion_failure_leaves_relaxed_view Nat Unit Nat Nat false []
    ⟨fun s _ => (.ok 0, s), [⟨fun _ _ => false, 4⟩], []⟩
    ⟨3, .contracted⟩ () 4 ⟨3, .relaxed⟩ rfl

/-- C8. A contracted call in which every check passes restores the receiver's
dispatch to the contracted view and returns exactly the value the raw
implementation produced, with the state the raw implementation left. -/
theorem success_restores_contracted_view
    (σ α ρ ε : Type) (paranoid : Bool)
    (invs : List (Localized (σ → Bool))) (mc : MethodContract σ α ρ ε)
    (inst : Instance σ) (args : α) (ret : ρ) (s' : σ)
    (hpre : paranoid = true → check_invariants invs inst.state = .ok ())
    (hreq : check_requires mc.requires inst.state args = .ok ())
    (hm : mc.method inst.state args = (.ok ret, s'))
    (hens : check_ensures mc.ensures s' ret inst.state args = .ok ())
    (hpost : check_invariants invs s' = .ok ()) :
    contractedCall paranoid invs mc inst args = .ok ret ⟨s', .contracted⟩ := by
  unfold contractedCall
  cases paranoid with
  | false => simp [hreq, hm, hens, hpost]
  | true => simp [hpre rfl, hreq, hm, hens, hpost]

/-- Witness for C8: a passing call returns the raw value 42 and an instance
back on the contracted view. -/
theorem success_restores_contracted_view_witness :
    contractedCall true [⟨fun s => s == 1, 0⟩]
      ⟨fun _ _ => (.ok 42, 1), [⟨fun _ _ => true, 0⟩],
       [⟨fun _ ret _ _ => ret == 42, 0⟩]⟩
      (⟨1, .contracted⟩ : Instance Nat) ()
      = (.ok 42 ⟨1, .contracted⟩ : CallResult Nat Nat Nat) := by
  exact success_restores_contracted_view Nat Unit Nat Nat true
    [⟨fun s => s == 1, 0⟩]
    ⟨fun _ _ => (.ok 42, 1), [⟨fun _ _ => true, 0⟩],
     [⟨fun _ ret _ _ => ret == 42, 0⟩]⟩
    ⟨1, .contracted⟩ () 42 1 (fun _ => rfl) rfl rfl rfl rfl

/-- C10. When the raw implementation raises a non-assertion exception, the
wrapper propagates it: the outcome carries that exception, no postcondition
or post-call invariant check is performed (the conclusion holds for every
`ensures` list and every invariant list behaviour at the exit state), and the
receiver is left dispatching through the relaxed (raw) view. -/
theorem body_exception_skips_post_checks
    (σ α ρ ε : Type) (paranoid : Bool)
    (invs : List (Localized (σ → Bool))) (mc : MethodContract σ α ρ ε)
    (inst : Instance σ) (args : α) (e : ε) (s' : σ)
    (hpre : paranoid = true → check_invariants invs inst.state = .ok ())
    (hreq : check_requires mc.requires inst.state args = .ok ())
    (hm : mc.method inst.state args = (.error e, s')) :
    contractedCall paranoid invs mc inst args = .otherError e ⟨s', .relaxed⟩ := by
  unfold contractedCall
  cases paranoid with
  | false => simp [hreq, hm]
  | true => simp [hpre rfl, hreq, hm]

/-- Witness for C10: a body that raises (exception tag 9) after mutating the
state to 5 yields that exception with the relaxed view, even though the
postcondition list would reject everything and the invariant fails at 5. -/
theorem body_exception_skips_post_checks_witness :
    contractedCall true [⟨fun s => s == 1, 0⟩]
      ⟨fun _ _ => (.error 9, 5), [], [⟨fun _ _ _ _ => false, 0⟩]⟩
      (⟨1, .contracted⟩ : Instance Nat) ()
      = (.otherError 9 ⟨5, .relaxed⟩ : CallResult Nat Nat Nat) := by
  exact body_exception_skips_post_checks Nat Unit Nat Nat true
    [⟨fun s => s == 1, 0⟩]
    ⟨fun _ _ => (.error 9, 5), [], [⟨fun _ _ _ _ => false, 0⟩]⟩
    ⟨1, .contracted⟩ () 9 5 (fun _ => rfl) rfl rfl

/-- The `new_init` closure installed by `_Contractor.wrap` (src/main.py lines
325-330): run the relaxed `__init__` with the original arguments, then call
`check_invariants` on the fresh instance through a factory built with
`method_contract = None`, so no precondition or postcondition exists to
check. The factory receives `paranoid` but `check_invariants` never consults
it. -/
def contractedInit (paranoid : Bool)
    (invariants : List (Localized (σ → Bool))) (rawInit : α → σ) (args : α) :
    Except Nat σ :=
  match check_invariants invariants (rawInit args) with
  | .error o => .error o
  | .ok () => .ok (rawInit args)

/-- C9. Construction runs the raw constructor with the original arguments and
then evaluates the invariants unconditionally: the outcome never depends on
the paranoid flag, a failing invariant on the constructed state makes
construction raise that failure, and passing invariants yield exactly the
raw constructor's state (there are no pre- or postcondition checks: the
wrapper is built from invariants alone). -/
theorem init_checks_invariants_unconditionally :
    (∀ (σ α : Type) (paranoid : Bool) (invs : List (Localized (σ → Bool)))
       (rawInit : α → σ) (args : α),
       contractedInit paranoid invs rawInit args
         = contractedInit true invs rawInit args)
    ∧ (∀ (σ α : Type) (paranoid : Bool) (invs : List (Localized (σ → Bool)))
         (rawInit : α → σ) (args : α) (o : Nat),
         check_invariants invs (rawInit args) = .error o →
         contractedInit paranoid invs rawInit args = .error o)
    ∧ (∀ (σ α : Type) (paranoid : Bool) (invs : List (Localized (σ → Bool)))
         (rawInit : α → σ) (args : α),
         check_invariants invs (rawInit args) = .ok () →
         contractedInit paranoid invs rawInit args = .ok (rawInit args)) := by
  refine ⟨?_, ?_, ?_⟩
  · intro σ α paranoid invs rawInit args
    rfl
  · intro σ α paranoid invs rawInit args o h
    unfold contractedInit
    simp [h]
  · intro σ α paranoid invs rawInit args h
    unfold contractedInit
    simp [h]

/-- Witness for C9: a constructor producing state 0 under invariant `s == 1`
raises the invariant's origin for either paranoid value; producing 1
succeeds. -/
theorem init_checks_invariants_unconditionally_witness :
    contractedInit false [⟨fun s => s == 1, 3⟩] (fun n => n) (0 : Nat)
      = .error 3
    ∧ contractedInit true [⟨fun s => s == 1, 3⟩] (fun n => n) (1 : Nat)
      = .ok 1 := by
  refine ⟨?_, ?_⟩
  · exact init_checks_invariants_unconditionally.2.1 Nat Nat false
      [⟨fun s => s == 1, 3⟩] (fun n => n) 0 3 rfl
  · exact init_checks_invariants_unconditionally.2.2 Nat Nat true
      [⟨fun s => s == 1, 3⟩] (fun n => n) 1 rfl

/-- One node of a method's override chain, for one assertion family: the
origin class tag together with the root-kind declaration
(`__require__`/`__ensure__`) and the continuation-kind declaration
(`__require_else__`/`__ensure_then__`) found by
`_find_nested_method_by_name` in that class's own definition of the method.
`A` is the assertion callable's type. -/
structure AssertionNode (A : Type) where
  origin : Nat
  root : Option A
  child : Option A

/-- The three registration-time failures of
`_MethodContractFactory._find_nested_assertion` (src/main.py lines 243-250),
one per `assert` statement, each naming the offending origin as the
corresponding message does. -/
inductive DefError where
  | useEither (origin : Nat)
  | useChildInstead (origin : Nat)
  | missingRoot (origin : Nat)
  deriving DecidableEq, Repr

/-- `_MethodContractFactory._find_nested_assertion` (src/main.py lines
235-251): given one chain node and whether a root declaration has already
been seen earlier in the base-to-derived walk (`root_found`), check the three
asserts in source order and return the node's declaration (root preferred,
matching `root_assertion_method or child_assertion_method`). -/
def find_nested_assertion (node : AssertionNode A) (root_found : Bool) :
    Except DefError (Option A) :=
  if node.root.isSome && node.child.isSome then
    .error (.useEither node.origin)
  else if root_found && node.root.isSome then
    .error (.useChildInstead node.origin)
  else if !root_found && node.child.isSome then
    .error (.missingRoot node.origin)
  else
    .ok (node.root <|> node.child)

/-- The loop of `_MethodContractFactory._extract_assertions` (src/main.py
lines 223-233) over the already-reversed chain (base-to-derived order):
`root_found` starts false and becomes true at the first node contributing a
declaration; contributed declarations are collected in walk order. -/
def extract_assertionsGo :
    List (AssertionNode A) → Bool → Except DefError (List (Localized A))
  | [], _ => .ok []
  | node :: rest, root_found =>
    match find_nested_assertion node root_found with
    | .error e => .error e
    | .ok none => extract_assertionsGo rest root_found
    | .ok (some m) =>
      match extract_assertionsGo rest true with
      | .error e => .error e
      | .ok tail => .ok (⟨m, node.origin⟩ :: tail)

/-- `_MethodContractFactory._extract_assertions` (src/main.py lines 217-233):
the stored chain is nearest-first, so `reversed(self._localized_methods)`
walks it base-to-derived; the resulting assertion list is therefore stored in
base-to-derived order. -/
def extract_assertions (nodes : List (AssertionNode A)) :
    Except DefError (List (Localized A)) :=
  extract_assertionsGo nodes.reverse false

/-- One localized method of an override chain (nearest first), with the
nested declarations of both assertion families scanned from its body. -/
structure MethodDecl (σ α ρ ε : Type) where
  origin : Nat
  method : σ → α → (Except ε ρ) × σ
  require : Option (σ → α → Bool)
  require_else : Option (σ → α → Bool)
  ensure : Option (σ → ρ → σ → α → Bool)
  ensure_then : Option (σ → ρ → σ → α → Bool)

/-- `_MethodContractFactory.create` (src/main.py lines 209-215) on the chain
`first :: rest` (nearest first): extract the requires family, then the
ensures family; a failed assertion aborts the whole construction, so the
`MethodContract` — whose implementation is `localized_methods[0].value`, the
most-derived override — is never produced. -/
def methodContractCreate (first : MethodDecl σ α ρ ε)
    (rest : List (MethodDecl σ α ρ ε)) :
    Except DefError (MethodContract σ α ρ ε) :=
  match extract_assertions ((first :: rest).map
      fun d => (⟨d.origin, d.require, d.require_else⟩ : AssertionNode _)) with
  | .error e => .error e
  | .ok requires =>
    match extract_assertions ((first :: rest).map
        fun d => (⟨d.origin, d.ensure, d.ensure_then⟩ : AssertionNode _)) with
    | .error e => .error e
    | .ok ensures => .ok ⟨first.method, requires, ensures⟩

/-- Whether any node of a walk prefix declares an assertion of the family:
after a cleanly-processed prefix this is exactly the walk's `root_found`
flag. -/
def declaresAny (nodes : List (AssertionNode A)) : Bool :=
  nodes.any fun n => n.root.isSome || n.child.isSome

theorem extract_assertionsGo_append (rest : List (AssertionNode A)) :
    ∀ (pre : List (AssertionNode A)) (rf : Bool) (l : List (Localized A)),
    extract_assertionsGo pre rf = .ok l →
    extract_assertionsGo (pre ++ rest) rf
      = match extract_assertionsGo rest (rf || declaresAny pre) with
        | .error e => .error e
        | .ok tail => .ok (l ++ tail) := by
  intro pre
  induction pre with
  | nil =>
    intro rf l h
    cases h
    simp only [List.nil_append, declaresAny, List.any_nil, Bool.or_false]
    cases extract_assertionsGo rest rf <;> rfl
  | cons node pre ih =>
    intro rf l h
    simp only [List.cons_append, extract_assertionsGo] at h ⊢
    cases hfind : find_nested_assertion node rf with
    | error e => rw [hfind] at h; cases h
    | ok m? =>
      rw [hfind] at h
      have hdecl : declaresAny (node :: pre)
          = ((node.root.isSome || node.child.isSome) || declaresAny pre) := by
        simp [declaresAny, List.any_cons]
      cases m? with
      | none =>
        have hnode : node.root = none ∧ node.child = none := by
          cases hr : node.root with
          | some a =>
            exfalso
            cases hc : node.child with
            | some b =>
              unfold find_nested_assertion at hfind
              rw [hr, hc] at hfind
              simp at hfind
            | none =>
              unfold find_nested_assertion at hfind
              rw [hr, hc] at hfind
              cases rf <;> simp at hfind
          | none =>
            cases hc : node.child with
            | some b =>
              exfalso
              unfold find_nested_assertion at hfind
              rw [hr, hc] at hfind
              cases rf <;> simp at hfind
            | none => exact ⟨rfl, rfl⟩
        rw [hdecl, hnode.1, hnode.2]
        simp only [Option.isSome_none, Bool.or_self, Bool.false_or]
        exact ih rf l h
      | some m =>
        have hdecl2 : (node.root.isSome || node.child.isSome) = true := by
          cases hr : node.root with
          | some a => simp
          | none =>
            cases hc : node.child with
            | some b => simp
            | none =>
              exfalso
              unfold find_nested_assertion at hfind
              rw [hr, hc] at hfind
              cases rf <;> simp at hfind
        cases htail : extract_assertionsGo pre true with
        | error e => rw [htail] at h; cases h
        | ok tail =>
          rw [htail] at h
          cases h
          have hih := ih true tail htail
          simp only [Bool.true_or] at hih
          rw [hdecl, hdecl2]
          simp only [Bool.true_or, Bool.or_true, List.append_eq]
          rw [hih]
          cases extract_assertionsGo rest true <;> simp

/-- C5. Walking a method's override chain base-to-derived (the reverse of the
stored nearest-first chain) and for each assertion family independently:
after any cleanly-processed prefix, a node declaring both kinds aborts with
the use-either error; a node redeclaring the root kind when the prefix
already declared something aborts with the use-continuation-instead error; a
node declaring only the continuation kind when the prefix declared nothing
aborts with the missing-root error; and a failed extraction of either family
aborts the construction of the method's contract at registration. -/
theorem override_discipline :
    (∀ (A : Type) (chain pre later : List (AssertionNode A))
       (bad : AssertionNode A) (l : List (Localized A)),
       chain.reverse = pre ++ bad :: later →
       extract_assertionsGo pre false = .ok l →
       bad.root.isSome = true → bad.child.isSome = true →
       extract_assertions chain = .error (.useEither bad.origin))
    ∧ (∀ (A : Type) (chain pre later : List (AssertionNode A))
         (bad : AssertionNode A) (l : List (Localized A)),
         chain.reverse = pre ++ bad :: later →
         extract_assertionsGo pre false = .ok l →
         declaresAny pre = true →
         bad.root.isSome = true → bad.child.isSome = false →
         extract_assertions chain = .error (.useChildInstead bad.origin))
    ∧ (∀ (A : Type) (chain pre later : List (AssertionNode A))
         (bad : AssertionNode A) (l : List (Localized A)),
         chain.reverse = pre ++ bad :: later →
         extract_assertionsGo pre false = .ok l →
         declaresAny pre = false →
         bad.root.isSome = false → bad.child.isSome = true →
         extract_assertions chain = .error (.missingRoot bad.origin))
    ∧ (∀ (σ α ρ ε : Type) (first : MethodDecl σ α ρ ε)
         (rest : List (MethodDecl σ α ρ ε)) (e : DefError),
         extract_assertions ((first :: rest).map
           fun d => (⟨d.origin, d.require, d.require_else⟩ : AssertionNode _))
           = .error e →
         methodContractCreate first rest = .error e)
    ∧ (∀ (σ α ρ ε : Type) (first : MethodDecl σ α ρ ε)
         (rest : List (MethodDecl σ α ρ ε))
         (rs : List (Localized (σ → α → Bool))) (e : DefError),
         extract_assertions ((first :: rest).map
           fun d => (⟨d.origin, d.require, d.require_else⟩ : AssertionNode _))
           = .ok rs →
         extract_assertions ((first :: rest).map
           fun d => (⟨d.origin, d.ensure, d.ensure_then⟩ : AssertionNode _))
           = .error e →
         methodContractCreate first rest = .error e) := by
  have hwalk : ∀ (A : Type) (chain pre later : List (AssertionNode A))
      (bad : AssertionNode A) (l : List (Localized A)) (e : DefError),
      chain.reverse = pre ++ bad :: later →
      extract_assertionsGo pre false = .ok l →
      find_nested_assertion bad (false || declaresAny pre) = .error e →
      extract_assertions chain = .error e := by
    intro A chain pre later bad l e hsplit hpre hbad
    unfold extract_assertions
    rw [hsplit, extract_assertionsGo_append (bad :: later) pre false l hpre]
    simp only [extract_assertionsGo, hbad]
  refine ⟨?_, ?_, ?_, ?_, ?_⟩
  · intro A chain pre later bad l hsplit hpre h1 h2
    refine hwalk A chain pre later bad l _ hsplit hpre ?_
    unfold find_nested_assertion
    simp [h1, h2]
  · intro A chain pre later bad l hsplit hpre hdecl h1 h2
    refine hwalk A chain pre later bad l _ hsplit hpre ?_
    unfold find_nested_assertion
    simp [h1, h2, hdecl]
  · intro A chain pre later bad l hsplit hpre hdecl h1 h2
    refine hwalk A chain pre later bad l _ hsplit hpre ?_
    unfold find_nested_assertion
    simp [h1, h2, hdecl]
  · intro σ α ρ ε first rest e h
    unfold methodContractCreate
    simp only [List.map_cons] at h ⊢
    rw [h]
  · intro σ α ρ ε first rest rs e hreq hens
    unfold methodContractCreate
    simp only [List.map_cons] at hreq hens ⊢
    rw [hreq, hens]

/-- Witness for C5: on concrete two-class chains (derived origin 1 stored
first, base origin 0 last, so the walk is base then derived), each of the
three misuses raises its error, and a bad requires family aborts
`methodContractCreate`. -/
theorem override_discipline_witness :
    extract_assertions ([⟨0, some 1, some 2⟩] : List (AssertionNode Nat))
      = .error (.useEither 0)
    ∧ extract_assertions
        ([⟨1, some 5, none⟩, ⟨0, some 4, none⟩] : List (AssertionNode Nat))
      = .error (.useChildInstead 1)
    ∧ extract_assertions ([⟨0, none, some 2⟩] : List (AssertionNode Nat))
      = .error (.missingRoot 0)
    ∧ methodContractCreate
        (⟨0, fun (s : Nat) (_ : Unit) => ((.ok (0 : Nat), s) : Except Nat Nat × Nat),
          some (fun _ _ => true), some (fun _ _ => true), none, none⟩ :
          MethodDecl Nat Unit Nat Nat) []
      = .error (.useEither 0)
    ∧ methodContractCreate
        (⟨0, fun (s : Nat) (_ : Unit) => ((.ok (0 : Nat), s) : Except Nat Nat × Nat),
          some (fun _ _ => true), none, none, some (fun _ _ _ _ => true)⟩ :
          MethodDecl Nat Unit Nat Nat) []
      = .error (.missingRoot 0) := by
  refine ⟨?_, ?_, ?_, ?_, ?_⟩
  · exact override_discipline.1 Nat _ [] [] ⟨0, some 1, some 2⟩ [] rfl rfl
      rfl rfl
  · exact override_discipline.2.1 Nat _ [⟨0, some 4, none⟩] []
      ⟨1, some 5, none⟩ [⟨4, 0⟩] rfl rfl rfl rfl rfl
  · exact override_discipline.2.2.1 Nat _ [] [] ⟨0, none, some 2⟩ [] rfl rfl
      rfl rfl rfl
  · exact override_discipline.2.2.2.1 Nat Unit Nat Nat
      ⟨0, fun s _ => (.ok 0, s),
        some (fun _ _ => true), some (fun _ _ => true), none, none⟩ []
      (.useEither 0) rfl
  · exact override_discipline.2.2.2.2 Nat Unit Nat Nat
      ⟨0, fun s _ => (.ok 0, s),
        some (fun _ _ => true), none, none, some (fun _ _ _ _ => true)⟩ []
      [⟨fun _ _ => true, 0⟩] (.missingRoot 0) rfl rfl

/-- One class of the registry: its Python method resolution order (the class
itself first, `object` last) and its own method definitions by name, as
retrieved by `_get_attr_or_none(c, name)` — which reads only the class's own
`__dict__`, bypassing inheritance. `rank` only witnesses that Python MROs
are well founded; it drives the termination argument. -/
structure ClassEntry (μ : Type) where
  mro : List Nat
  defines : Nat → Option μ
  rank : Nat

/-- A registry of classes by tag. `rank_lt` captures the well-foundedness of
Python MROs: every strict ancestor — a class after `c` in `c`'s MRO — has a
smaller rank than `c`. -/
structure ClassTable (μ : Type) where
  entry : Nat → ClassEntry μ
  rank_lt : ∀ c c', c' ∈ ((entry c).mro).tail → (entry c').rank < (entry c).rank

/-- `_ClassContractFactory._find_parent_methods` (src/main.py lines 167-190):
scan `cls.__mro__[1:]` for the first class whose own `__dict__` defines
`name` (the `Localized` generator combined with `next(...)`); prepend that
localized method and recurse **from the found class**, i.e. continue along
the found class's own MRO, not the original class's linearization. The inner
`none` branch is unreachable (`find?` guarantees a definition) but keeps the
function total. -/
def findParentMethods (t : ClassTable μ) (name : Nat) (c : Nat) :
    List (Localized μ) :=
  match hfound : ((t.entry c).mro.tail).find?
      (fun k => ((t.entry k).defines name).isSome) with
  | none => []
  | some c' =>
    match (t.entry c').defines name with
    | none => []
    | some m => ⟨m, c'⟩ :: findParentMethods t name c'
termination_by (t.entry c).rank
decreasing_by
  exact t.rank_lt c c' (List.mem_of_find?_eq_some hfound)

theorem findParentMethods_eq_nil (t : ClassTable μ) (name c : Nat)
    (h : ((t.entry c).mro.tail).find?
      (fun k => ((t.entry k).defines name).isSome) = none) :
    findParentMethods t name c = [] := by
  unfold findParentMethods
  split
  next => rfl
  next c' heq =>
    rw [h] at heq
    exact Option.noConfusion heq

theorem findParentMethods_eq_cons (t : ClassTable μ) (name c c' : Nat) (m : μ)
    (h1 : ((t.entry c).mro.tail).find?
      (fun k => ((t.entry k).defines name).isSome) = some c')
    (h2 : (t.entry c').defines name = some m) :
    findParentMethods t name c = ⟨m, c'⟩ :: findParentMethods t name c' := by
  conv_lhs => unfold findParentMethods
  split
  next heq =>
    rw [h1] at heq
    exact Option.noConfusion heq
  next k heq =>
    rw [h1] at heq
    cases heq
    rw [h2]

theorem findParentMethods_sound (t : ClassTable μ) (name : Nat) :
    ∀ (r c : Nat), (t.entry c).rank ≤ r →
      ∀ lm ∈ findParentMethods t name c,
        (t.entry lm.origin).defines name = some lm.value := by
  intro r
  induction r with
  | zero =>
    intro c hc lm hlm
    cases hfound : ((t.entry c).mro.tail).find?
        (fun k => ((t.entry k).defines name).isSome) with
    | none =>
      rw [findParentMethods_eq_nil t name c hfound] at hlm
      simp at hlm
    | some c' =>
      have hlt := t.rank_lt c c' (List.mem_of_find?_eq_some hfound)
      omega
  | succ r ih =>
    intro c hc lm hlm
    cases hfound : ((t.entry c).mro.tail).find?
        (fun k => ((t.entry k).defines name).isSome) with
    | none =>
      rw [findParentMethods_eq_nil t name c hfound] at hlm
      simp at hlm
    | some c' =>
      have hlt := t.rank_lt c c' (List.mem_of_find?_eq_some hfound)
      cases hdef : (t.entry c').defines name with
      | none =>
        have hp := List.find?_some hfound
        rw [hdef] at hp
        simp at hp
      | some m =>
        rw [findParentMethods_eq_cons t name c c' m hfound hdef] at hlm
        rcases List.mem_cons.mp hlm with h | h
        · subst h
          exact hdef
        · exact ih c' (by omega) lm h

/-- The override-chain tail exactly as claim C6 words it: walk the
linearization just after the class and keep exactly those ancestors that
have their own definition of the method, nearest first. Stated only for
comparison with the source's `findParentMethods`. -/
def parentChainClaimed (t : ClassTable μ) (name : Nat) (c : Nat) :
    List (Localized μ) :=
  ((t.entry c).mro.tail).filterMap
    fun k => ((t.entry k).defines name).map fun m => ⟨m, k⟩

/-- Diamond hierarchy for the C6 counterexample: tag 0 is `object`; tags 1
and 2 (`B1`, `B2`) each define method 7 in their own `__dict__` (with bodies
11 and 22); tag 3 is `T(B1, B2)` with its own override 33. Python's C3
linearization of `T` is `[T, B1, B2, object]` while `B1`'s is
`[B1, object]`. -/
def diamondEntry : Nat → ClassEntry Nat
  | 0 => ⟨[0], fun _ => none, 0⟩
  | 1 => ⟨[1, 0], fun n => if n == 7 then some 11 else none, 1⟩
  | 2 => ⟨[2, 0], fun n => if n == 7 then some 22 else none, 1⟩
  | 3 => ⟨[3, 1, 2, 0], fun n => if n == 7 then some 33 else none, 2⟩
  | _ + 4 => ⟨[], fun _ => none, 0⟩

/-- The diamond registry, with the well-foundedness proof of its ranks. -/
def diamondTable : ClassTable Nat where
  entry := diamondEntry
  rank_lt := by
    intro c c' h
    match c with
    | 0 => simp [diamondEntry] at h
    | 1 =>
      simp [diamondEntry] at h
      subst h
      decide
    | 2 =>
      simp [diamondEntry] at h
      subst h
      decide
    | 3 =>
      simp [diamondEntry] at h
      rcases h with h | h | h <;> subst h <;> decide
    | n + 4 => simp [diamondEntry] at h

/-- Counterexample to C6 as stated: in the diamond `T(B1, B2)` where both
`B1` and `B2` define method 7, the source's chain for `T` stops after `B1`
(the recursion continues in `B1`'s own MRO `[B1, object]`, which never
reaches `B2`), whereas the claim's walk of `T`'s linearization keeping every
ancestor with an own definition would also list `B2`. -/
theorem override_chain_counterexample :
    findParentMethods diamondTable 7 3 = [⟨11, 1⟩]
    ∧ parentChainClaimed diamondTable 7 3 = [⟨11, 1⟩, ⟨22, 2⟩] := by
  constructor
  · rw [findParentMethods_eq_cons diamondTable 7 3 1 11 rfl rfl,
      findParentMethods_eq_nil diamondTable 7 1 rfl]
  · rfl

/-- C6 amended. The chain tail produced for a method name: every entry is an
ancestor's own definition of the name (ancestors without an own definition
contribute no entry); when no class of the linearization tail defines the
name the tail is empty; and the walk takes the first definer of the class's
linearization tail and then recurses through that found class's own
linearization — so in multiple-inheritance hierarchies a definer absent from
the found class's MRO is skipped, as the counterexample shows. -/
theorem override_chain_recursive :
    (∀ (μ : Type) (t : ClassTable μ) (name c : Nat) (lm : Localized μ),
       lm ∈ findParentMethods t name c →
       (t.entry lm.origin).defines name = some lm.value)
    ∧ (∀ (μ : Type) (t : ClassTable μ) (name c : Nat),
         (∀ k ∈ (t.entry c).mro.tail, (t.entry k).defines name = none) →
         findParentMethods t name c = [])
    ∧ (∀ (μ : Type) (t : ClassTable μ) (name c c' : Nat) (m : μ),
         ((t.entry c).mro.tail).find?
           (fun k => ((t.entry k).defines name).isSome) = some c' →
         (t.entry c').defines name = some m →
         findParentMethods t name c
           = ⟨m, c'⟩ :: findParentMethods t name c') := by
  refine ⟨?_, ?_, ?_⟩
  · intro μ t name c lm hlm
    exact findParentMethods_sound t name (t.entry c).rank c (Nat.le_refl _)
      lm hlm
  · intro μ t name c h
    refine findParentMethods_eq_nil t name c (List.find?_eq_none.mpr ?_)
    intro k hk
    rw [h k hk]
    simp
  · intro μ t name c c' m h1 h2
    exact findParentMethods_eq_cons t name c c' m h1 h2

/-- Witness for the amended C6, on the diamond registry: the chain entry for
method 7 at `T` is `B1`'s own definition; a name nobody defines (9) yields an
empty tail; and the chain for 7 is `B1`'s entry followed by the walk from
`B1`. -/
theorem override_chain_recursive_witness :
    (diamondTable.entry 1).defines 7 = some 11
    ∧ findParentMethods diamondTable 9 3 = []
    ∧ findParentMethods diamondTable 7 3
        = ⟨11, 1⟩ :: findParentMethods diamondTable 7 1 := by
  refine ⟨?_, ?_, ?_⟩
  · refine override_chain_recursive.1 Nat diamondTable 7 3 ⟨11, 1⟩ ?_
    rw [findParentMethods_eq_cons diamondTable 7 3 1 11 rfl rfl]
    exact List.mem_cons_self _ _
  · exact override_chain_recursive.2.1 Nat diamondTable 9 3 (by decide)
  · exact override_chain_recursive.2.2 Nat diamondTable 7 3 1 11 rfl rfl

end ToyContract
